import Mathlib

/-!
Verification of the kuma spam-dashboard aggregation core
(`kuma/dashboards/constants.py`, `kuma/dashboards/utils.py`,
`kuma/dashboards/jobs.py`).

Python dictionaries are embedded as association lists (`List (String × β)`,
first match wins, insertion order preserved), `collections.Counter` as an
association list updated by `incr`, calendar dates as day numbers (`Int`,
via `ratadie` for concrete calendar dates), and numeric values as `Nat`
(counts) or `ℚ` (the float arithmetic of the rate computations).
Functions that can hit a Python `assert`, `KeyError` or `NameError` return
`Option`, with `none` standing for the raised exception.
-/

namespace Kuma

/-- Python `dict.get(k)`: first binding of `k` in the association list. -/
def assocGet {β : Type} : List (String × β) → String → Option β
  | [], _ => none
  | (k', v) :: t, k => if k' = k then some v else assocGet t k

/-- Python `d.get(k, 0)`. -/
def getCount {β : Type} [Zero β] (events : List (String × β)) (k : String) : β :=
  (assocGet events k).getD 0

/-- Python `d[k] = v`: replace the first binding of `k`, or append a new one. -/
def insertKV {β : Type} : List (String × β) → String → β → List (String × β)
  | [], k, v => [(k, v)]
  | (k', v') :: t, k, v =>
      if k' = k then (k', v) :: t else (k', v') :: insertKV t k v

/-- Python `counter[k] += 1` on a `collections.Counter`. -/
def incr : List (String × Nat) → String → List (String × Nat)
  | [], k => [(k, 1)]
  | (k', v) :: t, k => if k' = k then (k', v + 1) :: t else (k', v) :: incr t k

/-- Sum of all values of an association list (total of all counts). -/
def sumValues {β : Type} [Add β] [Zero β] (l : List (String × β)) : β :=
  (l.map Prod.snd).sum

/-- Python `s in l` for a list of strings. -/
def memb (s : String) : List String → Bool
  | [] => false
  | a :: t => if a = s then true else memb s t

/-- Python `s.startswith(p)` (structural, on the character data). -/
def strStartsWith (s p : String) : Bool :=
  p.data.isPrefixOf s.data

/-- Python `s.endswith(p)` (structural, on the character data). -/
def strEndsWith (s p : String) : Bool :=
  p.data.isSuffixOf s.data

/-- Python `itertools.product(*parts)`: leftmost factor varies slowest. -/
def listProd : List (List String) → List (List String)
  | [] => [[]]
  | l :: ls => l.flatMap (fun x => (listProd ls).map (fun r => x :: r))

/-- Python `'_'.join(parts)`. -/
def joinKey (parts : List String) : String :=
  String.intercalate "_" parts

/-! ### Constants (`kuma/dashboards/constants.py`) -/

def SPAM_PERIODS : List (Nat × String) :=
  [(1, "period_daily"), (7, "period_weekly"),
   (28, "period_monthly"), (91, "period_quarterly")]

def SPAM_STAT_CATEGORY_OPTIONS : List (String × List String) :=
  [("group", ["staff", "known", "other"]),
   ("published", ["published", "blocked"]),
   ("content", ["spam", "ham", "unknown"]),
   ("fresh", ["new", "edit"]),
   ("lang", ["en", "other"])]

/-- Source: `set(name for name, opts in SPAM_STAT_CATEGORY_OPTIONS)`;
membership-equivalent list of the category names. -/
def SPAM_STAT_CATEGORIES : List String :=
  SPAM_STAT_CATEGORY_OPTIONS.map Prod.fst

structure ChangeType where
  id : String
  fresh : String
  lang : String
deriving DecidableEq, Repr

def SPAM_STAT_CHANGE_TYPES : List ChangeType :=
  [⟨"changetype_new", "new", "en"⟩,
   ⟨"changetype_edit", "edit", "en"⟩,
   ⟨"changetype_newtrans", "new", "other"⟩,
   ⟨"changetype_edittrans", "edit", "other"⟩]

/-- A derived-statistic definition: the keys of the Python dicts in
`BASE_SPAM_DASHBOARD_DERIVED_STATS` (the denominator key is spelled
`rate_denominiator` in the source). -/
structure StatDef where
  id : String
  derived : List (String × String)
  rate_denominiator : Option String := none
deriving DecidableEq, Repr

def BASE_SPAM_DASHBOARD_DERIVED_STATS : List StatDef :=
  [⟨"total", [], none⟩,
   ⟨"published_ham", [("content", "ham"), ("published", "published")], none⟩,
   ⟨"blocked_spam", [("content", "spam"), ("published", "blocked")], some "total"⟩,
   ⟨"published_spam", [("content", "spam"), ("published", "published")], some "total"⟩,
   ⟨"blocked_ham", [("content", "ham"), ("published", "blocked")], some "total"⟩,
   ⟨"spam", [("content", "spam")], some "total"⟩,
   ⟨"spam_blocked", [("content", "spam"), ("published", "blocked")], some "spam"⟩]

/-- Source: `denom_id = stat.get('rate_denominiator'); if denom_id:` —
the suffixed denominator is attached only when `denom_id` is truthy. -/
def suffixDenom (d : Option String) (suffix : String) : Option String :=
  match d with
  | none => none
  | some s => if s = "" then none else some (s ++ suffix)

/-- The three module-level generation loops of `constants.py` (lines 70-110):
base stats, base × change type, base × group, and group × change type. -/
def mkDerivedStats (base : List StatDef) (changetypes : List ChangeType)
    (groups : List String) : List StatDef :=
  base
  ++ changetypes.flatMap (fun ct => base.map (fun stat =>
       { id := stat.id ++ "_" ++ ct.id,
         derived := insertKV (insertKV stat.derived "fresh" ct.fresh) "lang" ct.lang,
         rate_denominiator := suffixDenom stat.rate_denominiator ("_" ++ ct.id) }))
  ++ groups.flatMap (fun g => base.map (fun stat =>
       { id := stat.id ++ "_group_" ++ g,
         derived := insertKV stat.derived "group" g,
         rate_denominiator := suffixDenom stat.rate_denominiator ("_group_" ++ g) }))
  ++ groups.flatMap (fun g => changetypes.map (fun ct =>
       { id := g ++ "_" ++ ct.id,
         derived := insertKV (insertKV [("group", g)] "fresh" ct.fresh) "lang" ct.lang,
         rate_denominiator := none }))

def SPAM_DASHBOARD_DERIVED_STATS : List StatDef :=
  mkDerivedStats BASE_SPAM_DASHBOARD_DERIVED_STATS SPAM_STAT_CHANGE_TYPES
    ["staff", "known", "other"]

def SPAM_RATE_ID_SUFFIX : String := "_rate"

/-! ### Derived stat evaluator (`utils.py`, `spam_derived_stat`, lines 164-191) -/

/-- The `parts` construction of `spam_derived_stat` (lines 177-184): for each
category in order, a bound truthy selection contributes a singleton (after the
domain assertion), an absent or falsy one contributes the full option list.
`none` models the `assert select in options` failure. -/
def selectParts (categories : List (String × String)) :
    List (String × List String) → Option (List (List String))
  | [] => some []
  | (c, opts) :: rest =>
      match assocGet categories c with
      | some s =>
          if s = "" then (selectParts categories rest).map (opts :: ·)
          else if memb s opts then (selectParts categories rest).map ([s] :: ·)
          else none
      | none => (selectParts categories rest).map (opts :: ·)

/-- The summation loop of `spam_derived_stat` (lines 186-189). -/
def sumCounts {β : Type} [Zero β] [Add β] (events : List (String × β))
    (keys : List String) : β :=
  keys.foldl (fun acc k => acc + getCount events k) 0

/-- `spam_derived_stat(events, **categories)` (`utils.py` lines 164-191).
`none` models a failed `assert` (invalid category name or option). -/
def spam_derived_stat {β : Type} [Zero β] [Add β] (events : List (String × β))
    (categories : List (String × String)) : Option β :=
  if categories.all (fun kv => memb kv.1 SPAM_STAT_CATEGORIES) then
    (selectParts categories SPAM_STAT_CATEGORY_OPTIONS).map (fun parts =>
      sumCounts events ((listProd parts).map joinKey))
  else none

/-- Spec-side marginalization, for the refinement claim about the evaluator.
Follows the spec's words: for every dimension absent from the selector
substitute its full value domain, bound dimensions contribute a singleton;
sum the counts (default 0) over the cross product. -/
def specMarginalSum {β : Type} [Zero β] [Add β] (events : List (String × β))
    (selector : List (String × String)) : β :=
  sumCounts events
    ((listProd (SPAM_STAT_CATEGORY_OPTIONS.map (fun co =>
        match assocGet selector co.1 with
        | some v => [v]
        | none => co.2))).map joinKey)

/-! ### Daily event aggregator (`utils.py`, `spam_day_stats`, lines 40-161) -/

/-- Modelled from the spec: the ham/spam/unresolved review classification of a
blocked attempt (`DocumentSpamAttempt.HAM` / `SPAM` / `NEEDS_REVIEW`, declared
in `kuma.wiki.models`, which is outside the aggregation core). -/
inductive Review where
  | ham
  | spam
  | needsReview
deriving DecidableEq, Repr

/-- A published revision, as read by `spam_day_stats`: its id, its author
(`creator_id`), its document, and whether an Akismet spam submission of type
`spam` exists for it. -/
structure RevRec where
  id : Nat
  creator_id : Nat
  document_id : Nat
  akismet_spam : Bool
deriving DecidableEq, Repr

/-- Per-document data read by `spam_day_stats`: the id of the document's first
revision (by creation order) and whether the document has a translation parent
(`parent_id`). -/
structure DocRec where
  first_rev_id : Nat
  has_parent : Bool
deriving DecidableEq, Repr

/-- A blocked edit (`DocumentSpamAttempt`), as read by `spam_day_stats`: the
attempt's author, its review classification, its optional linked document, and
the optional `blog_lang` locale tag of its JSON `data` payload. -/
structure BlockedRec where
  user_id : Nat
  review : Review
  document_id : Option Nat
  blog_lang : Option String
deriving DecidableEq, Repr

/-- The author-group lookup (lines 77-82 / 114-119): first matching entry of
`special_groups = (('staff', staff_ids), ('known', known_ids - staff_ids))`,
defaulting to `'other'`. -/
def groupOf (staff known : List Nat) (uid : Nat) : String :=
  if staff.contains uid then "staff"
  else if known.contains uid && !staff.contains uid then "known"
  else "other"

/-- The `doc_lang` of a revision's document (line 94):
`'other' if rev.document.parent_id else 'en'`. -/
def docLang (docs : Nat → DocRec) (r : RevRec) : String :=
  if (docs r.document_id).has_parent then "other" else "en"

/-- The event key of one published revision (lines 77-105). -/
def revKey (staff known : List Nat) (docs : Nat → DocRec) (r : RevRec) : String :=
  joinKey [groupOf staff known r.creator_id, "published",
           if r.akismet_spam then "spam" else "ham",
           if (docs r.document_id).first_rev_id = r.id then "new" else "edit",
           docLang docs r]

/-- The published-revisions loop (lines 66-106).  Besides the counter it
returns the final values of the Python loop variables `rev` and `doc_lang`,
which the blocked-edits loop goes on to read; `none` when the loop never ran
and they stay unbound. -/
def processRevs (staff known : List Nat) (docs : Nat → DocRec)
    (ctx : Option (RevRec × String)) (counts : List (String × Nat)) :
    List RevRec → List (String × Nat) × Option (RevRec × String)
  | [] => (counts, ctx)
  | r :: rs =>
      processRevs staff known docs (some (r, docLang docs r))
        (incr counts (revKey staff known docs r)) rs

/-- The `blog_lang` fallback for a blocked edit with no linked document
(lines 140-147): `data.get('blog_lang')`, falsy → `'other'`, `en*` → `'en'`,
otherwise `'other'`. -/
def blockedFallbackLang (blog_lang : Option String) : String :=
  match blog_lang with
  | none => "other"
  | some l =>
      if l = "" then "other"
      else if strStartsWith l "en" then "en"
      else "other"

/-- Whether a blocked attempt's classification is resolved (counted by the
aggregator): review is ham or spam, not needs-review. -/
def isResolved (b : BlockedRec) : Bool :=
  match b.review with
  | Review.needsReview => false
  | _ => true

/-- The blocked-edits loop (lines 108-151).  Note the source's stale-variable
reads: the group comes from `rev.creator_id` and the key's language from
`doc_lang`, both left over from the published-revisions loop (`ctx`); when the
revision loop never ran, touching them raises `NameError`, modelled as `none`. -/
def processBlocked (staff known : List Nat) (docs : Nat → DocRec)
    (ctx : Option (RevRec × String)) (needs_review : Bool)
    (counts : List (String × Nat)) :
    List BlockedRec → Option (List (String × Nat) × Bool)
  | [] => some (counts, needs_review)
  | b :: bs =>
      match ctx with
      | none => none
      | some (rev, doc_lang) =>
          let group := groupOf staff known rev.creator_id
          match b.review with
          | Review.needsReview =>
              processBlocked staff known docs ctx true counts bs
          | r =>
              let content := if r = Review.spam then "spam" else "ham"
              let fresh := if b.document_id.isSome then "edit" else "new"
              let key := joinKey [group, "blocked", content, fresh, doc_lang]
              processBlocked staff known docs ctx needs_review
                (incr counts key) bs

/-- The day's snapshot (the `version`, wall-clock `generated` timestamp and
`day` echo of the returned dict are omitted: the first is the constant 1 and
the others are not part of any counted state). -/
structure DaySnapshot where
  needs_review : Bool
  events : List (String × Nat)
deriving DecidableEq, Repr

/-- `spam_day_stats(day)` (`utils.py` lines 40-161), taking the day's published
revisions and blocked edits (the database reads) as explicit inputs, together
with the identity-classification sets of `spam_special_groups` and the
document table. -/
def spam_day_stats (staff known : List Nat) (docs : Nat → DocRec)
    (revs : List RevRec) (blocked : List BlockedRec) : Option DaySnapshot :=
  let pr := processRevs staff known docs none [] revs
  match processBlocked staff known docs pr.2 false pr.1 blocked with
  | none => none
  | some (counts, needs_review) => some ⟨needs_review, counts⟩

/-! ### Calendar dates -/

/-- Day number of the Gregorian date `y-m-d` (days since 1970-01-01), the
standard days-from-civil computation; the embedding of `datetime.date`
(date ± `timedelta(days=n)` is day-number ± `n`). -/
def ratadie (y m d : Nat) : Int :=
  let y' := if m ≤ 2 then y - 1 else y
  let era := y' / 400
  let yoe := y' % 400
  let mp := (m + 9) % 12
  let doy := (153 * mp + 2) / 5 + d - 1
  let doe := yoe * 365 + yoe / 4 - yoe / 100 + doy
  (era * 146097 + doe : Int) - 719468

/-! ### Trend window builder
(`utils.py`, `spam_dashboard_historical_stats`, lines 215-224) -/

/-- One entry of the `spans` list: `(length, period_id, end, mid, start)`. -/
structure Span where
  days : Nat
  period_id : String
  endD : Int
  mid : Int
  startD : Int
deriving DecidableEq, Repr

/-- The span-building loop (lines 218-224): `end = end_date`,
`mid = end - timedelta(days=length)`, `start = mid - timedelta(days=length)`. -/
def spam_spans (periods : List (Nat × String)) (end_date : Int) : List Span :=
  periods.map (fun p =>
    ⟨p.1, p.2, end_date, end_date - (p.1 : Int), end_date - (p.1 : Int) - (p.1 : Int)⟩)

/-- The `oldest` accumulator of the same loop (lines 217, 223). -/
def spam_oldest (periods : List (Nat × String)) (end_date : Int) : Int :=
  (spam_spans periods end_date).foldl (fun oldest s => min s.startD oldest) end_date

/-- Day-loop membership test for a span (line 274): `end >= day > start`. -/
def inWindow (s : Span) (day : Int) : Prop :=
  s.endD ≥ day ∧ day > s.startD

instance (s : Span) (day : Int) : Decidable (inWindow s day) :=
  inferInstanceAs (Decidable (_ ∧ _))

/-- Whether a day in a span's window counts toward the current (rather than
previous) accumulator (line 275): `current = day > mid`. -/
def isCurrent (s : Span) (day : Int) : Prop :=
  day > s.mid

instance (s : Span) (day : Int) : Decidable (isCurrent s day) :=
  inferInstanceAs (Decidable (_ < _))

/-- The reported current window boundaries (lines 321-324):
`start = mid + 1 day`, `end = end`. -/
def currentBounds (s : Span) : Int × Int :=
  (s.mid + 1, s.endD)

/-- The reported previous window boundaries (lines 325-328):
`start = start + 1 day`, `end = mid`. -/
def previousBounds (s : Span) : Int × Int :=
  (s.startD + 1, s.mid)

/-! ### Historical stats orchestrator: argument resolution
(`utils.py` lines 205-213) -/

/-- Argument defaulting and validation of `spam_dashboard_historical_stats`
(lines 207-213).  Python truthiness: an empty `periods` or `derived_stats`
list and a zero `summary` are falsy and replaced by their defaults; `none`
models a failed `assert`. -/
def resolveArgs (periods : List (Nat × String)) (end_date : Option Int)
    (today : Int) (derived_stats : List StatDef) (summary : Option Nat) :
    Option (List (Nat × String) × Int × List StatDef × Nat) :=
  let periods := if periods.isEmpty then SPAM_PERIODS else periods
  let end_date := end_date.getD (today - 1)
  let derived_stats :=
    if derived_stats.isEmpty then SPAM_DASHBOARD_DERIVED_STATS else derived_stats
  let summary :=
    match summary with
    | none => (periods.getLastD (0, "")).1
    | some s => if s = 0 then (periods.getLastD (0, "")).1 else s
  if periods.isEmpty then none
  else if (periods.map Prod.fst).contains summary then
    some (periods, end_date, derived_stats, summary)
  else none

/-! ### Historical stats orchestrator: per-day derivation
(`utils.py` lines 254-267) -/

/-- One iteration of the per-day derived-stats loop (lines 255-267): evaluate
the stat, store it under its id, and if a rate denominator is declared, look
it up (`KeyError` → `none`) and store the zero-guarded rate. -/
def deriveStep (stat : StatDef) (day_events : List (String × ℚ)) :
    Option (List (String × ℚ)) :=
  match spam_derived_stat day_events stat.derived with
  | none => none
  | some derived =>
      let day_events := insertKV day_events stat.id derived
      match stat.rate_denominiator with
      | none => some day_events
      | some d =>
          match assocGet day_events d with
          | none => none
          | some denom =>
              some (insertKV day_events (stat.id ++ SPAM_RATE_ID_SUFFIX)
                (if denom = 0 then 0 else derived / denom))

/-- The whole per-day derived-stats loop. -/
def deriveDayStats (stats : List StatDef) (day_events : List (String × ℚ)) :
    Option (List (String × ℚ)) :=
  match stats with
  | [] => some day_events
  | s :: rest => (deriveStep s day_events).bind (deriveDayStats rest)

/-! ### Historical stats orchestrator: per-period rates
(`utils.py` lines 336-345) -/

/-- One iteration of the per-period rate loop (lines 336-345) on an
accumulated `gdict`: for a stat with a declared denominator, read the
accumulated derived value and denominator (`KeyError` → `none`) and store the
zero-guarded rate. -/
def periodRateStep (stat : StatDef) (gdict : List (String × ℚ)) :
    Option (List (String × ℚ)) :=
  match stat.rate_denominiator with
  | none => some gdict
  | some d =>
      match assocGet gdict stat.id with
      | none => none
      | some derived =>
          match assocGet gdict d with
          | none => none
          | some denom =>
              some (insertKV gdict (stat.id ++ SPAM_RATE_ID_SUFFIX)
                (if denom = 0 then 0 else derived / denom))

/-! ### Historical stats orchestrator: raw table rows
(`utils.py` lines 354-366) -/

/-- A cell of the raw table: a number, or a formatted string. -/
inductive Cell where
  | num (q : ℚ)
  | str (s : String)
deriving DecidableEq, Repr

/-- Round to the nearest integer, ties to even: the rounding of C's `%f`
formatting used by Python's `"%0.02f"`. -/
def roundHalfEven (q : ℚ) : Int :=
  let fl := ⌊q⌋
  if q - fl < 1 / 2 then fl
  else if q - fl > 1 / 2 then fl + 1
  else if fl % 2 = 0 then fl else fl + 1

/-- Two-digit zero-padded rendering of `n < 100`. -/
def pad2 (n : Nat) : String :=
  if n < 10 then "0" ++ toString n else toString n

/-- `"%0.02f" % q`: fixed-point rendering with exactly two decimals. -/
def fmt2 (q : ℚ) : String :=
  let n := roundHalfEven (q * 100)
  let core := toString (n.natAbs / 100) ++ "." ++ pad2 (n.natAbs % 100)
  if n < 0 then "-" ++ core else core

/-- Line 364: `"%0.02f%%" % (100.0 * raw)`. -/
def formatRate (q : ℚ) : String :=
  fmt2 (100 * q) ++ "%"

/-- One row of the raw table (lines 359-366): the day's ISO date, then one
cell per column: `metrics.get(column_id, 0)`, formatted as a percentage
string when the column id ends with the rate suffix. -/
def rawRow (dayIso : String) (metrics : List (String × ℚ))
    (columns : List String) : List Cell :=
  columns.foldl (fun row column_id =>
      let raw := getCount metrics column_id
      row ++ [if strEndsWith column_id SPAM_RATE_ID_SUFFIX
              then Cell.str (formatRate raw) else Cell.num raw])
    [Cell.str dayIso]

/-- The `raw_columns` list of the orchestrator (lines 227-231): every full
event key, in `itertools.product` order. -/
def raw_columns : List String :=
  (listProd (SPAM_STAT_CATEGORY_OPTIONS.map Prod.snd)).map joinKey

/-! ### Helper lemmas -/

lemma memb_iff {s : String} : ∀ {l : List String}, memb s l = true ↔ s ∈ l
  | [] => by simp [memb]
  | a :: t => by
      by_cases h : a = s
      · simp [memb, h]
      · simp [memb, h, memb_iff, Ne.symm h]

lemma assocGet_mem {β : Type} {k : String} {v : β} :
    ∀ {l : List (String × β)}, assocGet l k = some v → (k, v) ∈ l
  | [], h => by simp [assocGet] at h
  | (k', v') :: t, h => by
      by_cases hk : k' = k
      · subst hk
        simp [assocGet] at h
        simp [h]
      · simp [assocGet, hk] at h
        exact List.mem_cons_of_mem _ (assocGet_mem h)

lemma assocGet_of_mem_nodup {β : Type} {k : String} {v : β} :
    ∀ {l : List (String × β)}, (k, v) ∈ l → (l.map Prod.fst).Nodup →
      assocGet l k = some v
  | [], h, _ => by simp at h
  | (k', v') :: t, h, hnd => by
      rcases List.mem_cons.mp h with h | h
      · cases h
        simp [assocGet]
      · have hk : k' ≠ k := by
          rintro rfl
          exact (List.nodup_cons.mp hnd).1
            (List.mem_map.mpr ⟨(k', v), h, rfl⟩)
        simp only [assocGet, if_neg hk]
        exact assocGet_of_mem_nodup h (List.nodup_cons.mp hnd).2

lemma getCount_eq_zero {β : Type} [Zero β] {k : String} :
    ∀ {l : List (String × β)}, k ∉ l.map Prod.fst → getCount l k = 0
  | [], _ => rfl
  | (k', v') :: t, h => by
      have hk : k' ≠ k := fun e => h (by simp [e])
      have ht : k ∉ t.map Prod.fst := fun e => h (by simp [e])
      simp only [getCount, assocGet, if_neg hk]
      exact getCount_eq_zero ht

lemma sumValues_incr (k : String) :
    ∀ (l : List (String × Nat)), sumValues (incr l k) = sumValues l + 1
  | [] => by simp [incr, sumValues]
  | (k', v) :: t => by
      by_cases h : k' = k
      · simp [incr, h, sumValues]
        omega
      · simp [incr, h, sumValues] at *
        have := sumValues_incr k t
        simp [sumValues] at this
        omega

lemma foldl_add_eq_sum {β : Type} [AddMonoid β] (f : String → β) :
    ∀ (keys : List String) (a : β),
      keys.foldl (fun acc k => acc + f k) a = a + (keys.map f).sum
  | [], a => by simp
  | k :: t, a => by
      simp only [List.foldl_cons, List.map_cons, List.sum_cons]
      rw [foldl_add_eq_sum f t (a + f k), add_assoc]

lemma sumCounts_eq_sum_map {β : Type} [AddMonoid β] (events : List (String × β))
    (keys : List String) : sumCounts events keys = (keys.map (getCount events)).sum := by
  simp [sumCounts, foldl_add_eq_sum]

lemma foldl_append_eq_map {α β : Type} (f : α → β) :
    ∀ (l : List α) (acc : List β),
      l.foldl (fun r x => r ++ [f x]) acc = acc ++ l.map f
  | [], acc => by simp
  | x :: t, acc => by
      simp only [List.foldl_cons, List.map_cons]
      rw [foldl_append_eq_map f t (acc ++ [f x])]
      simp

lemma selectParts_eq_of_valid (cats : List (String × String)) :
    ∀ (ol : List (String × List String)),
      (∀ co ∈ ol, ∀ s, assocGet cats co.1 = some s → s ≠ "" ∧ memb s co.2 = true) →
      selectParts cats ol =
        some (ol.map (fun co =>
          match assocGet cats co.1 with
          | some v => [v]
          | none => co.2))
  | [], _ => rfl
  | (c, opts) :: rest, h => by
      have hrest := selectParts_eq_of_valid cats rest
        (fun co hco => h co (List.mem_cons_of_mem _ hco))
      cases hg : assocGet cats c with
      | none => simp [selectParts, hg, hrest]
      | some s =>
          obtain ⟨hne, hm⟩ := h (c, opts) (List.mem_cons_self _ _) s hg
          simp [selectParts, hg, hne, hm, hrest]

lemma spam_options_values_ne_empty :
    ∀ co ∈ SPAM_STAT_CATEGORY_OPTIONS, ∀ s ∈ co.2, s ≠ "" := by decide

lemma spam_options_keys_nodup :
    (SPAM_STAT_CATEGORY_OPTIONS.map Prod.fst).Nodup := by decide

/-- C1: for every event mapping and every selector binding a subset of the
dimensions to in-domain values, `spam_derived_stat` returns (without failing)
the spec-side marginal sum: the sum, over the cross product substituting the
full value domain for each unbound dimension and a singleton for each bound
one, of the counts of the resulting full event keys, with 0 for absent keys. -/
theorem spam_derived_stat_is_marginal_sum (events : List (String × Nat))
    (cats : List (String × String))
    (hk : ∀ kv ∈ cats, kv.1 ∈ SPAM_STAT_CATEGORIES)
    (hv : ∀ kv ∈ cats, kv.2 ∈ (assocGet SPAM_STAT_CATEGORY_OPTIONS kv.1).getD []) :
    spam_derived_stat events cats = some (specMarginalSum events cats) := by
  have hall : cats.all (fun kv => memb kv.1 SPAM_STAT_CATEGORIES) = true := by
    rw [List.all_eq_true]
    intro kv hkv
    exact memb_iff.mpr (hk kv hkv)
  have hvalid : ∀ co ∈ SPAM_STAT_CATEGORY_OPTIONS, ∀ s,
      assocGet cats co.1 = some s → s ≠ "" ∧ memb s co.2 = true := by
    intro co hco s hg
    have hmem : (co.1, s) ∈ cats := assocGet_mem hg
    have hdom := hv (co.1, s) hmem
    have hopts : assocGet SPAM_STAT_CATEGORY_OPTIONS co.1 = some co.2 := by
      have : (co.1, co.2) ∈ SPAM_STAT_CATEGORY_OPTIONS := by
        simpa using hco
      exact assocGet_of_mem_nodup this spam_options_keys_nodup
    rw [hopts] at hdom
    simp only [Option.getD_some] at hdom
    exact ⟨spam_options_values_ne_empty co hco s hdom, memb_iff.mpr hdom⟩
  rw [spam_derived_stat, if_pos hall,
    selectParts_eq_of_valid cats SPAM_STAT_CATEGORY_OPTIONS hvalid]
  rfl

/-- C1 witness: the spec's example — events
`{other_published_ham_edit_en: 13, staff_published_ham_edit_en: 26}` with the
selector `{content: ham, published: published}` evaluate to 39. -/
theorem spam_derived_stat_marginal_example :
    (∀ kv ∈ ([("content", "ham"), ("published", "published")] :
        List (String × String)),
      kv.1 ∈ SPAM_STAT_CATEGORIES ∧
      kv.2 ∈ (assocGet SPAM_STAT_CATEGORY_OPTIONS kv.1).getD []) ∧
    spam_derived_stat
      [("other_published_ham_edit_en", 13), ("staff_published_ham_edit_en", 26)]
      [("content", "ham"), ("published", "published")] = some 39 := by
  constructor
  · decide
  · rw [spam_derived_stat_is_marginal_sum
      [("other_published_ham_edit_en", 13), ("staff_published_ham_edit_en", 26)]
      [("content", "ham"), ("published", "published")]
      (by decide) (by decide)]
    decide

lemma getCount_cons {β : Type} [Zero β] (k₀ : String) (v₀ : β)
    (t : List (String × β)) (k : String) :
    getCount ((k₀, v₀) :: t) k = if k₀ = k then v₀ else getCount t k := by
  by_cases h : k₀ = k <;> simp [getCount, assocGet, h]

lemma sum_map_ite (a : Nat) (g : String → Nat) (k₀ : String) :
    ∀ (keys : List String), keys.Nodup → k₀ ∈ keys → g k₀ = 0 →
      (keys.map (fun k => if k₀ = k then a else g k)).sum = a + (keys.map g).sum
  | [], _, hmem, _ => absurd hmem (by simp)
  | k :: rest, hnd, hmem, hz => by
      by_cases h : k₀ = k
      · subst h
        have hout : k₀ ∉ rest := (List.nodup_cons.mp hnd).1
        have hsame : rest.map (fun x => if k₀ = x then a else g x) = rest.map g := by
          apply List.map_congr_left
          intro x hx
          have : k₀ ≠ x := fun e => hout (e ▸ hx)
          simp [this]
        simp [hsame, hz]
      · have hmem' : k₀ ∈ rest := by
          rcases List.mem_cons.mp hmem with h' | h'
          · exact absurd h' h
          · exact h'
        simp only [List.map_cons, List.sum_cons, if_neg h]
        rw [sum_map_ite a g k₀ rest (List.nodup_cons.mp hnd).2 hmem' hz]
        omega

lemma sum_map_getCount :
    ∀ (events : List (String × Nat)) (keys : List String), keys.Nodup →
      (events.map Prod.fst).Nodup → (∀ k ∈ events.map Prod.fst, k ∈ keys) →
      (keys.map (getCount events)).sum = sumValues events
  | [], keys, _, _, _ => by
      have : ∀ x ∈ keys.map (getCount ([] : List (String × Nat))), x = 0 := by
        intro x hx
        rcases List.mem_map.mp hx with ⟨k, _, rfl⟩
        rfl
      simp [sumValues, List.sum_eq_zero this]
  | (k₀, v₀) :: t, keys, hK, hnd, hsub => by
      have hk₀ : k₀ ∈ keys := hsub k₀ (by simp)
      have hout : k₀ ∉ t.map Prod.fst := (List.nodup_cons.mp (by simpa using hnd)).1
      have hz : getCount t k₀ = 0 := getCount_eq_zero hout
      have hcong : keys.map (getCount ((k₀, v₀) :: t)) =
          keys.map (fun k => if k₀ = k then v₀ else getCount t k) :=
        List.map_congr_left (fun k _ => getCount_cons k₀ v₀ t k)
      rw [hcong, sum_map_ite v₀ (getCount t) k₀ keys hK hk₀ hz,
        sum_map_getCount t keys hK (List.nodup_cons.mp (by simpa using hnd)).2
          (fun k hk => hsub k (by simp [hk]))]
      simp [sumValues]

lemma raw_columns_nodup : raw_columns.Nodup := by decide

/-- C9: for every event mapping whose keys are all full event keys, the
catalog's unconstrained `total` stat (empty selector) evaluates to the sum of
all counts in the mapping. -/
theorem total_stat_equals_sum_of_leaves (events : List (String × Nat))
    (t : StatDef)
    (ht : SPAM_DASHBOARD_DERIVED_STATS.find? (fun s => s.id == "total") = some t)
    (hnd : (events.map Prod.fst).Nodup)
    (hsub : ∀ k ∈ events.map Prod.fst, k ∈ raw_columns) :
    spam_derived_stat events t.derived = some (sumValues events) := by
  have htotal : SPAM_DASHBOARD_DERIVED_STATS.find? (fun s => s.id == "total") =
      some ⟨"total", [], none⟩ := by rfl
  rw [htotal] at ht
  cases ht
  have hparts : selectParts ([] : List (String × String)) SPAM_STAT_CATEGORY_OPTIONS =
      some (SPAM_STAT_CATEGORY_OPTIONS.map (fun co =>
        match assocGet ([] : List (String × String)) co.1 with
        | some v => [v]
        | none => co.2)) :=
    selectParts_eq_of_valid [] SPAM_STAT_CATEGORY_OPTIONS
      (fun _ _ s hg => by simp [assocGet] at hg)
  show spam_derived_stat events [] = some (sumValues events)
  show Option.map (fun parts => sumCounts events (List.map joinKey (listProd parts)))
    (selectParts [] SPAM_STAT_CATEGORY_OPTIONS) = some (sumValues events)
  rw [hparts]
  show some (sumCounts events raw_columns) = some (sumValues events)
  rw [sumCounts_eq_sum_map,
    sum_map_getCount events raw_columns raw_columns_nodup hnd hsub]

/-- C9 witness: a two-key mapping over full event keys sums to 5. -/
theorem total_stat_equals_sum_of_leaves_example :
    SPAM_DASHBOARD_DERIVED_STATS.find? (fun s => s.id == "total") =
      some ⟨"total", [], none⟩ ∧
    (([("other_published_ham_edit_en", 2), ("staff_blocked_spam_new_other", 3)] :
        List (String × Nat)).map Prod.fst).Nodup ∧
    (∀ k ∈ ([("other_published_ham_edit_en", 2), ("staff_blocked_spam_new_other", 3)] :
        List (String × Nat)).map Prod.fst, k ∈ raw_columns) ∧
    spam_derived_stat
      ([("other_published_ham_edit_en", 2), ("staff_blocked_spam_new_other", 3)] :
        List (String × Nat)) [] = some 5 := by
  refine ⟨rfl, by decide, by decide, ?_⟩
  exact (total_stat_equals_sum_of_leaves
    [("other_published_ham_edit_en", 2), ("staff_blocked_spam_new_other", 3)]
    ⟨"total", [], none⟩ rfl (by decide) (by decide)).trans (by decide)

lemma processRevs_sum (staff known : List Nat) (docs : Nat → DocRec) :
    ∀ (revs : List RevRec) (ctx : Option (RevRec × String))
      (counts : List (String × Nat)),
      sumValues (processRevs staff known docs ctx counts revs).1 =
        sumValues counts + revs.length
  | [], _, _ => by simp [processRevs]
  | r :: rs, ctx, counts => by
      rw [processRevs, processRevs_sum staff known docs rs _ _, sumValues_incr]
      simp
      omega

lemma processBlocked_sum (staff known : List Nat) (docs : Nat → DocRec)
    (ctx : Option (RevRec × String)) :
    ∀ (bs : List BlockedRec) (nr : Bool) (counts counts' : List (String × Nat))
      (nr' : Bool),
      processBlocked staff known docs ctx nr counts bs = some (counts', nr') →
      sumValues counts' = sumValues counts + (bs.filter isResolved).length
  | [], nr, counts, counts', nr', h => by
      simp [processBlocked] at h
      simp [h.1]
  | b :: bs, nr, counts, counts', nr', h => by
      match hc : ctx with
      | none => simp [processBlocked, hc] at h
      | some (rev, doc_lang) =>
          match hr : b.review with
          | Review.needsReview =>
              rw [processBlocked, hr] at h
              have := processBlocked_sum staff known docs (some (rev, doc_lang))
                bs true counts counts' nr' h
              simpa [List.filter_cons, isResolved, hr] using this
          | Review.ham =>
              rw [processBlocked, hr] at h
              have := processBlocked_sum staff known docs (some (rev, doc_lang))
                bs nr _ counts' nr' h
              rw [sumValues_incr] at this
              simp [List.filter_cons, isResolved, hr, this]
              omega
          | Review.spam =>
              rw [processBlocked, hr] at h
              have := processBlocked_sum staff known docs (some (rev, doc_lang))
                bs nr _ counts' nr' h
              rw [sumValues_incr] at this
              simp [List.filter_cons, isResolved, hr, this]
              omega

/-- C2: whenever the daily aggregator produces a snapshot, the sum of all its
leaf event counts equals the number of published revisions plus the number of
blocked attempts whose review classification is resolved (not needs-review). -/
theorem spam_day_stats_total_counts (staff known : List Nat) (docs : Nat → DocRec)
    (revs : List RevRec) (blocked : List BlockedRec) (snap : DaySnapshot)
    (h : spam_day_stats staff known docs revs blocked = some snap) :
    sumValues snap.events = revs.length + (blocked.filter isResolved).length := by
  rw [spam_day_stats] at h
  match hb : processBlocked staff known docs
      (processRevs staff known docs none [] revs).2 false
      (processRevs staff known docs none [] revs).1 blocked with
  | none => rw [hb] at h; simp at h
  | some (counts', nr') =>
      rw [hb] at h
      simp only [Option.some.injEq] at h
      have hsum := processBlocked_sum staff known docs _ blocked false _ counts' nr' hb
      rw [processRevs_sum staff known docs revs none []] at hsum
      rw [← h]
      simp [sumValues] at hsum ⊢
      omega

/-- C2 witness: one published revision, one resolved blocked attempt and one
needs-review blocked attempt give a snapshot whose counts sum to 2. -/
theorem spam_day_stats_total_counts_example :
    spam_day_stats [1] [] (fun d => if d = 5 then ⟨100, false⟩ else ⟨200, true⟩)
      [⟨101, 1, 5, false⟩]
      [⟨42, Review.needsReview, some 7, none⟩, ⟨42, Review.spam, none, some "en-US"⟩] =
      some ⟨true, [("staff_published_ham_edit_en", 1), ("staff_blocked_spam_new_en", 1)]⟩ ∧
    sumValues ((⟨true, [("staff_published_ham_edit_en", 1),
        ("staff_blocked_spam_new_en", 1)]⟩ : DaySnapshot).events) =
      ([⟨101, 1, 5, false⟩] : List RevRec).length +
      (([⟨42, Review.needsReview, some 7, none⟩, ⟨42, Review.spam, none, some "en-US"⟩] :
          List BlockedRec).filter isResolved).length := by
  refine ⟨by decide, ?_⟩
  exact spam_day_stats_total_counts [1] []
    (fun d => if d = 5 then ⟨100, false⟩ else ⟨200, true⟩)
    [⟨101, 1, 5, false⟩]
    [⟨42, Review.needsReview, some 7, none⟩, ⟨42, Review.spam, none, some "en-US"⟩]
    ⟨true, [("staff_published_ham_edit_en", 1), ("staff_blocked_spam_new_en", 1)]⟩
    (by decide)

/-- C3: the daily aggregator does NOT bucket a blocked attempt by its own
author and language.  With staff user 1 as the creator of the day's only
published revision (on English document 5), a blocked ham attempt by
non-staff user 42 on translated document 7 is bucketed under
`staff_blocked_ham_edit_en` — the published revision's author group and
document language, read from the stale loop variables `rev` and `doc_lang` —
while the key the claim requires, `other_blocked_ham_edit_other`, stays at 0. -/
theorem spam_day_stats_blocked_uses_stale_attributes :
    spam_day_stats [1] [] (fun d => if d = 5 then ⟨100, false⟩ else ⟨200, true⟩)
      [⟨101, 1, 5, false⟩] [⟨42, Review.ham, some 7, none⟩] =
      some ⟨false, [("staff_published_ham_edit_en", 1),
                    ("staff_blocked_ham_edit_en", 1)]⟩ ∧
    getCount [("staff_published_ham_edit_en", 1), ("staff_blocked_ham_edit_en", 1)]
      "other_blocked_ham_edit_other" = 0 ∧
    groupOf [1] [] 42 = "other" ∧
    (fun d => if d = 5 then (⟨100, false⟩ : DocRec) else ⟨200, true⟩) 7 =
      ⟨200, true⟩ := by
  refine ⟨by decide, by decide, by decide, by decide⟩

/-- C4: every span built for a period of length `L` and end date `E` has
`end = E`, `mid = E − L`, `start = E − 2L`; a day is accumulated into the
current bucket exactly on `(E − L, E]` and into the previous bucket exactly on
`(E − 2L, E − L]`; the reported window boundaries are `[E − L + 1, E]` and
`[E − 2L + 1, E − L]` (the same intervals, closed form); and for periods
`[(1, daily), (7, weekly)]` ending 2016-05-05 the spans are exactly
daily `(2016-05-04 .. 2016-05-05, previous from 2016-05-03)` and weekly
`(2016-04-28 .. 2016-05-05, previous from 2016-04-21)`. -/
theorem spam_spans_windows :
    (∀ (periods : List (Nat × String)) (E : Int), ∀ s ∈ spam_spans periods E,
      s.endD = E ∧ s.mid = E - s.days ∧ s.startD = E - 2 * s.days ∧
      (∀ day : Int, (inWindow s day ∧ isCurrent s day) ↔
        (E - s.days < day ∧ day ≤ E)) ∧
      (∀ day : Int, (inWindow s day ∧ ¬ isCurrent s day) ↔
        (E - 2 * s.days < day ∧ day ≤ E - s.days)) ∧
      currentBounds s = (E - s.days + 1, E) ∧
      previousBounds s = (E - 2 * s.days + 1, E - s.days)) ∧
    spam_spans [(1, "period_daily"), (7, "period_weekly")] (ratadie 2016 5 5) =
      [⟨1, "period_daily", ratadie 2016 5 5, ratadie 2016 5 4, ratadie 2016 5 3⟩,
       ⟨7, "period_weekly", ratadie 2016 5 5, ratadie 2016 4 28, ratadie 2016 4 21⟩] := by
  constructor
  · intro periods E s hs
    rw [spam_spans, List.mem_map] at hs
    obtain ⟨p, _, rfl⟩ := hs
    refine ⟨rfl, rfl, by simp; ring, ?_, ?_, rfl, ?_⟩
    · intro day
      simp only [inWindow, isCurrent]
      constructor
      · rintro ⟨⟨h1, h2⟩, h3⟩
        constructor <;> [exact h3; exact h1]
      · rintro ⟨h1, h2⟩
        refine ⟨⟨h2, ?_⟩, h1⟩
        have : (0 : Int) ≤ (p.1 : Int) := Int.ofNat_nonneg p.1
        omega
    · intro day
      simp only [inWindow, isCurrent, not_lt]
      constructor
      · rintro ⟨⟨h1, h2⟩, h3⟩
        constructor <;> omega
      · rintro ⟨h1, h2⟩
        refine ⟨⟨?_, ?_⟩, ?_⟩ <;> omega
    · simp only [previousBounds]
      rw [Prod.mk.injEq]
      exact ⟨by ring, rfl⟩
  · decide

/-- C4 witness: instantiating the window characterization at the weekly span
of the example gives the boundary pair (2016-04-29 .. 2016-05-05) as
`mid + 1 = E − 7 + 1`. -/
theorem spam_spans_windows_example :
    (⟨7, "period_weekly", ratadie 2016 5 5, ratadie 2016 4 28, ratadie 2016 4 21⟩ :
        Span) ∈
      spam_spans [(1, "period_daily"), (7, "period_weekly")] (ratadie 2016 5 5) ∧
    currentBounds
      ⟨7, "period_weekly", ratadie 2016 5 5, ratadie 2016 4 28, ratadie 2016 4 21⟩ =
      (ratadie 2016 5 5 - 7 + 1, ratadie 2016 5 5) := by
  refine ⟨by decide, ?_⟩
  have h := (spam_spans_windows.1 [(1, "period_daily"), (7, "period_weekly")]
    (ratadie 2016 5 5)
    ⟨7, "period_weekly", ratadie 2016 5 5, ratadie 2016 4 28, ratadie 2016 4 21⟩
    (by decide)).2.2.2.2.2.1
  simpa using h

/-- C5: in both the per-day derivation and the per-period aggregate
computation, the stored rate is the derived value divided by the denominator's
value when the denominator is nonzero, and 0 when the denominator is 0. -/
theorem rate_zero_guarded :
    (∀ (stat : StatDef) (ev : List (String × ℚ)) (d : String) (v dv : ℚ),
      stat.rate_denominiator = some d →
      spam_derived_stat ev stat.derived = some v →
      assocGet (insertKV ev stat.id v) d = some dv →
      deriveStep stat ev = some (insertKV (insertKV ev stat.id v)
        (stat.id ++ SPAM_RATE_ID_SUFFIX) (if dv = 0 then 0 else v / dv))) ∧
    (∀ (stat : StatDef) (gdict : List (String × ℚ)) (d : String) (v dv : ℚ),
      stat.rate_denominiator = some d →
      assocGet gdict stat.id = some v →
      assocGet gdict d = some dv →
      periodRateStep stat gdict = some (insertKV gdict
        (stat.id ++ SPAM_RATE_ID_SUFFIX) (if dv = 0 then 0 else v / dv))) := by
  constructor
  · intro stat ev d v dv hd hv hdv
    simp [deriveStep, hv, hd, hdv]
  · intro stat gdict d v dv hd hv hdv
    simp [periodRateStep, hd, hv, hdv]

/-- C5 witness: derived 10 over denominator 40 stores rate 1/4 (= 0.25) in the
per-day path; derived 0 over denominator 0 stores rate 0 in the per-period
path. -/
theorem rate_zero_guarded_example :
    (⟨"s", [("group", "staff"), ("published", "published"), ("content", "ham"),
        ("fresh", "new"), ("lang", "en")], some "t"⟩ : StatDef).rate_denominiator =
      some "t" ∧
    deriveStep ⟨"s", [("group", "staff"), ("published", "published"),
        ("content", "ham"), ("fresh", "new"), ("lang", "en")], some "t"⟩
      [("staff_published_ham_new_en", 10), ("t", 40)] =
      some [("staff_published_ham_new_en", 10), ("t", 40), ("s", 10),
            ("s_rate", 1 / 4)] ∧
    periodRateStep ⟨"u", [], some "z"⟩ [("u", 0), ("z", 0)] =
      some [("u", 0), ("z", 0), ("u_rate", 0)] := by
  refine ⟨rfl, ?_, ?_⟩
  · have hderived : spam_derived_stat
        ([("staff_published_ham_new_en", 10), ("t", 40)] : List (String × ℚ))
        [("group", "staff"), ("published", "published"), ("content", "ham"),
         ("fresh", "new"), ("lang", "en")] = some 10 := by
      have hk : joinKey ["staff", "published", "ham", "new", "en"] =
          "staff_published_ham_new_en" := rfl
      simp [spam_derived_stat, selectParts, assocGet, memb,
        SPAM_STAT_CATEGORY_OPTIONS, SPAM_STAT_CATEGORIES, listProd, hk,
        sumCounts, getCount]
    rw [rate_zero_guarded.1 ⟨"s", [("group", "staff"), ("published", "published"),
        ("content", "ham"), ("fresh", "new"), ("lang", "en")], some "t"⟩
      [("staff_published_ham_new_en", 10), ("t", 40)] "t" 10 40
      rfl hderived rfl]
    have hsfx : "s" ++ SPAM_RATE_ID_SUFFIX = "s_rate" := rfl
    simp [insertKV, hsfx]
    norm_num
  · rw [rate_zero_guarded.2 ⟨"u", [], some "z"⟩ [("u", 0), ("z", 0)] "z" 0 0
      rfl rfl rfl]
    have hsfx : "u" ++ SPAM_RATE_ID_SUFFIX = "u_rate" := rfl
    simp [insertKV, hsfx]

/-- C6: calling the historical-stats builder with an empty period list does
NOT fail: `periods or SPAM_PERIODS` silently replaces the empty list with the
default periods (making the `assert periods` unreachable), the summary
defaults to 91, and argument resolution succeeds. -/
theorem empty_periods_silently_defaulted (today : Int) :
    resolveArgs [] none today [] none =
      some (SPAM_PERIODS, today - 1, SPAM_DASHBOARD_DERIVED_STATS, 91) := rfl

/-- C7 counterexample: catalog generation performs no denominator-resolution
check — a base entry whose stated denominator id `zz` resolves to no catalog
entry still generates a catalog (containing the dangling id) instead of
failing. -/
theorem catalog_generation_never_fails_on_dangling_denominator :
    mkDerivedStats [⟨"x", [], some "zz"⟩] [] [] = [⟨"x", [], some "zz"⟩] ∧
    memb "zz" ((mkDerivedStats [⟨"x", [], some "zz"⟩] [] []).map StatDef.id) =
      false := by
  refine ⟨by decide, by decide⟩

/-- C7 (amended): the generated catalog nevertheless satisfies the resolution
property — every stated rate denominator id in
`SPAM_DASHBOARD_DERIVED_STATS` is the id of some catalog entry. -/
theorem catalog_denominators_all_resolve :
    SPAM_DASHBOARD_DERIVED_STATS.all (fun stat =>
      match stat.rate_denominiator with
      | none => true
      | some d => memb d (SPAM_DASHBOARD_DERIVED_STATS.map StatDef.id)) = true := by
  decide

lemma selectParts_none_iff (cats : List (String × String)) :
    ∀ (ol : List (String × List String)),
      selectParts cats ol = none ↔
        ∃ co ∈ ol, ∃ s, assocGet cats co.1 = some s ∧ s ≠ "" ∧
          memb s co.2 = false
  | [] => by simp [selectParts]
  | (c, opts) :: rest => by
      have ih := selectParts_none_iff cats rest
      cases hg : assocGet cats c with
      | none =>
          rw [show selectParts cats ((c, opts) :: rest) =
              (selectParts cats rest).map (opts :: ·) from by
            simp [selectParts, hg]]
          rw [Option.map_eq_none', ih]
          constructor
          · rintro ⟨co, hco, s, hgs, hne, hm⟩
            exact ⟨co, List.mem_cons_of_mem _ hco, s, hgs, hne, hm⟩
          · rintro ⟨co, hco, s, hgs, hne, hm⟩
            rcases List.mem_cons.mp hco with h | hco
            · subst h
              rw [hg] at hgs
              exact Option.noConfusion hgs
            · exact ⟨co, hco, s, hgs, hne, hm⟩
      | some s₀ =>
          by_cases he : s₀ = ""
          · subst he
            rw [show selectParts cats ((c, opts) :: rest) =
                (selectParts cats rest).map (opts :: ·) from by
              simp [selectParts, hg]]
            rw [Option.map_eq_none', ih]
            constructor
            · rintro ⟨co, hco, s, hgs, hne, hm⟩
              exact ⟨co, List.mem_cons_of_mem _ hco, s, hgs, hne, hm⟩
            · rintro ⟨co, hco, s, hgs, hne, hm⟩
              rcases List.mem_cons.mp hco with h | hco
              · subst h
                rw [hg] at hgs
                injection hgs with h
                exact absurd h.symm hne
              · exact ⟨co, hco, s, hgs, hne, hm⟩
          · by_cases hm0 : memb s₀ opts = true
            · rw [show selectParts cats ((c, opts) :: rest) =
                  (selectParts cats rest).map ([s₀] :: ·) from by
                simp [selectParts, hg, he, hm0]]
              rw [Option.map_eq_none', ih]
              constructor
              · rintro ⟨co, hco, s, hgs, hne, hm⟩
                exact ⟨co, List.mem_cons_of_mem _ hco, s, hgs, hne, hm⟩
              · rintro ⟨co, hco, s, hgs, hne, hm⟩
                rcases List.mem_cons.mp hco with h | hco
                · subst h
                  rw [hg] at hgs
                  injection hgs with h
                  rw [← h] at hm
                  rw [hm0] at hm
                  exact Bool.noConfusion hm
                · exact ⟨co, hco, s, hgs, hne, hm⟩
            · have hm0f : memb s₀ opts = false := by
                rwa [Bool.not_eq_true] at hm0
              rw [show selectParts cats ((c, opts) :: rest) = none from by
                simp [selectParts, hg, he, hm0f]]
              constructor
              · intro _
                exact ⟨(c, opts), List.mem_cons_self _ _, s₀, hg, he, hm0f⟩
              · intro _
                rfl

/-- C8 counterexample: a selector whose value is the empty string — a value
outside every dimension's domain — is NOT rejected: the evaluator treats
falsy values as unbound and returns the unconstrained total. -/
theorem empty_string_selector_value_not_rejected :
    spam_derived_stat [("other_published_ham_edit_en", (3 : Nat))]
      [("content", "")] = some 3 ∧
    "content" ∈ SPAM_STAT_CATEGORIES ∧
    assocGet SPAM_STAT_CATEGORY_OPTIONS "content" =
      some ["spam", "ham", "unknown"] ∧
    "" ∉ ["spam", "ham", "unknown"] := by
  refine ⟨by decide, by decide, by decide, by decide⟩

/-- C8 (amended): the evaluator fails exactly when some selector key names an
undeclared dimension, or some selector entry has a NONEMPTY value outside its
dimension's value domain; entries with empty (falsy) values are treated as
unconstrained rather than validated. -/
theorem spam_derived_stat_failure_iff (ev : List (String × Nat))
    (cats : List (String × String)) (hnd : (cats.map Prod.fst).Nodup) :
    spam_derived_stat ev cats = none ↔
      ((∃ kv ∈ cats, kv.1 ∉ SPAM_STAT_CATEGORIES) ∨
       (∃ kv ∈ cats, kv.2 ≠ "" ∧
          kv.2 ∉ (assocGet SPAM_STAT_CATEGORY_OPTIONS kv.1).getD [])) := by
  by_cases hall : cats.all (fun kv => memb kv.1 SPAM_STAT_CATEGORIES) = true
  · have hdecl : ∀ kv ∈ cats, kv.1 ∈ SPAM_STAT_CATEGORIES := by
      intro kv hkv
      exact memb_iff.mp (List.all_eq_true.mp hall kv hkv)
    rw [spam_derived_stat, if_pos hall, Option.map_eq_none',
      selectParts_none_iff cats]
    constructor
    · rintro ⟨co, hco, s, hgs, hne, hm⟩
      right
      refine ⟨(co.1, s), assocGet_mem hgs, hne, ?_⟩
      have hopts : assocGet SPAM_STAT_CATEGORY_OPTIONS co.1 = some co.2 :=
        assocGet_of_mem_nodup (by simpa using hco) spam_options_keys_nodup
      rw [hopts]
      simp only [Option.getD_some]
      intro hmem
      rw [memb_iff.mpr hmem] at hm
      exact Bool.noConfusion hm
    · rintro (⟨kv, hkv, hk⟩ | ⟨kv, hkv, hne, hdom⟩)
      · exact absurd (hdecl kv hkv) hk
      · have hk1 : kv.1 ∈ SPAM_STAT_CATEGORY_OPTIONS.map Prod.fst :=
          hdecl kv hkv
        obtain ⟨co, hco, hfst⟩ := List.mem_map.mp hk1
        have hopts : assocGet SPAM_STAT_CATEGORY_OPTIONS kv.1 = some co.2 := by
          rw [← hfst]
          exact assocGet_of_mem_nodup (by simpa using hco) spam_options_keys_nodup
        rw [hopts] at hdom
        simp only [Option.getD_some] at hdom
        refine ⟨co, hco, kv.2, ?_, hne, ?_⟩
        · rw [hfst]
          exact assocGet_of_mem_nodup (by simpa using hkv) hnd
        · by_cases hmb : memb kv.2 co.2 = true
          · exact absurd (memb_iff.mp hmb) hdom
          · rwa [Bool.not_eq_true] at hmb
  · rw [spam_derived_stat, if_neg hall]
    simp only [List.all_eq_true] at hall
    push_neg at hall
    obtain ⟨kv, hkv, hk⟩ := hall
    have hk' : kv.1 ∉ SPAM_STAT_CATEGORIES := fun hmem => hk (memb_iff.mpr hmem)
    constructor
    · intro _
      exact Or.inl ⟨kv, hkv, hk'⟩
    · intro _
      rfl

/-- C8 witness: a selector naming the undeclared dimension `bogus` makes the
evaluator fail. -/
theorem spam_derived_stat_failure_iff_example :
    (([("bogus", "x")] : List (String × String)).map Prod.fst).Nodup ∧
    spam_derived_stat ([] : List (String × Nat)) [("bogus", "x")] = none := by
  refine ⟨by decide, ?_⟩
  exact (spam_derived_stat_failure_iff [] [("bogus", "x")] (by decide)).mpr
    (Or.inl ⟨("bogus", "x"), by decide, by decide⟩)

/-- C10: in every raw-table row, the first cell is the day's date string, a
column whose id ends with the rate suffix is emitted as the two-decimal
percentage string of 100 times its value (not as a number), and every other
column is emitted as its numeric value, 0 when absent from the metrics. -/
theorem raw_row_rate_columns_formatted :
    (∀ (dayIso : String) (metrics : List (String × ℚ)) (columns : List String),
      rawRow dayIso metrics columns =
        Cell.str dayIso :: columns.map (fun column_id =>
          if strEndsWith column_id SPAM_RATE_ID_SUFFIX
          then Cell.str (formatRate (getCount metrics column_id))
          else Cell.num (getCount metrics column_id))) ∧
    (∀ (metrics : List (String × ℚ)) (column_id : String),
      column_id ∉ metrics.map Prod.fst → getCount metrics column_id = 0) := by
  constructor
  · intro dayIso metrics columns
    exact foldl_append_eq_map (fun column_id =>
      if strEndsWith column_id SPAM_RATE_ID_SUFFIX
      then Cell.str (formatRate (getCount metrics column_id))
      else Cell.num (getCount metrics column_id)) columns [Cell.str dayIso]
  · intro metrics column_id h
    exact getCount_eq_zero h

/-- C10 witness: a rate column renders as `25.00%`, a plain column as its
number, and an absent column as 0. -/
theorem raw_row_rate_columns_formatted_example :
    rawRow "2016-05-05" [("a_rate", 1 / 4), ("b", 3)] ["a_rate", "b"] =
      [Cell.str "2016-05-05", Cell.str "25.00%", Cell.num 3] ∧
    "c" ∉ ([("b", (3 : ℚ))].map Prod.fst) ∧
    getCount [("b", (3 : ℚ))] "c" = 0 := by
  refine ⟨?_, by decide, ?_⟩
  · rw [raw_row_rate_columns_formatted.1]
    have hfr : formatRate ((1 : ℚ) / 4) = "25.00%" := by
      have h1 : ((100 : ℚ) * (1 / 4)) * 100 = 2500 := by norm_num
      have h2 : roundHalfEven (((100 : ℚ) * (1 / 4)) * 100) = 2500 := by
        rw [h1]
        unfold roundHalfEven
        norm_num
      rw [formatRate, fmt2, h2]
      rfl
    have hstep : [Cell.str "2016-05-05", Cell.str (formatRate ((1 : ℚ) / 4)),
        Cell.num 3] = [Cell.str "2016-05-05", Cell.str "25.00%", Cell.num 3] := by
      rw [hfr]
    exact hstep
  · exact raw_row_rate_columns_formatted.2 [("b", (3 : ℚ))] "c" (by decide)

end Kuma
